import Mathlib

/-!
Verification of the PBIP/PBIX extraction and query-synthesis core
(src/lib/extraction/pbip_extractor.py and src/lib/extraction/pbix_extractor.py).

The Python code is shallowly embedded: each Python function relevant to the
claims is translated into an executable Lean definition operating on the same
data (strings, lists, records).  File and archive I/O is elided: the embedded
functions receive the already-decoded text / JSON content as arguments, with
`Option` encoding "file absent" and "parse failure" where the Python code
branches on those.  Python dictionaries keyed by insertion order are modelled
as association lists with last-write-wins lookup; Python sets used only for
membership tests are modelled as lists with `contains`.  Float similarity
scores are modelled as exact fractions with cross-multiplication
comparison (every score arising here is a small exact ratio).
-/

/- ------------------------------------------------------------------ -/
/- String helpers mirroring the Python primitives used by the source. -/
/- ------------------------------------------------------------------ -/

/-- ASCII whitespace, as stripped by Python str.strip() on the inputs here. -/
def isWsChar (c : Char) : Bool :=
  c = ' ' || c = '\t' || c = '\n' || c = '\r' || c = '\x0b' || c = '\x0c'

/-- Python \w character class (ASCII portion): letters, digits, underscore. -/
def isWordChar (c : Char) : Bool :=
  c.isAlpha || c.isDigit || c = '_'

def dropRightWhileChars (p : Char → Bool) (l : List Char) : List Char :=
  (l.reverse.dropWhile p).reverse

/-- Python str.strip(): remove leading and trailing whitespace. -/
def pyStrip (s : String) : String :=
  String.mk (dropRightWhileChars isWsChar (s.data.dropWhile isWsChar))

/-- Python str.strip("'"): remove all leading and trailing single quotes. -/
def stripQuotesBoth (s : String) : String :=
  String.mk (dropRightWhileChars (fun c => c = '\'') (s.data.dropWhile (fun c => c = '\'')))

/-- Python s.startswith(pre). -/
def startsWithStr (pre s : String) : Bool :=
  pre.data.isPrefixOf s.data

/-- Python s.endswith(suf). -/
def endsWithStr (suf s : String) : Bool :=
  suf.data.reverse.isPrefixOf s.data.reverse

/-- Python `needle in hay` substring test. -/
def containsSubAux (needle : List Char) : List Char → Bool
  | [] => needle.isPrefixOf []
  | c :: rest => needle.isPrefixOf (c :: rest) || containsSubAux needle rest

def containsSub (needle hay : String) : Bool :=
  containsSubAux needle.data hay.data

/-- Indentation as computed by the source: len(line) - len(line.lstrip(tab+space)). -/
def getIndent (s : String) : Nat :=
  (s.data.takeWhile (fun c => c = '\t' || c = ' ')).length

/-- True when the raw line starts with a whitespace character (regex prefix \s+). -/
def hasLeadingWs (s : String) : Bool :=
  match s.data with
  | [] => false
  | c :: _ => isWsChar c

/-- Split at the first occurrence of a character; none when absent
(models Python s.split(c, 1) when it yields two parts). -/
def splitOnceChar (ch : Char) : List Char → Option (List Char × List Char)
  | [] => none
  | c :: rest =>
    if c = ch then some ([], rest)
    else (splitOnceChar ch rest).map (fun p => (c :: p.1, p.2))

/-- Split on every occurrence of a character (Python s.split(c)); "" gives [""]. -/
def splitAllChar (ch : Char) (l : List Char) : List String :=
  match l with
  | [] => [""]
  | c :: rest =>
    let tail := splitAllChar ch rest
    if c = ch then "" :: tail
    else
      match tail with
      | [] => [String.mk [c]]
      | t :: ts => String.mk (c :: t.data) :: ts

def splitStr (ch : Char) (s : String) : List String :=
  splitAllChar ch s.data

def toLowerStr (s : String) : String :=
  String.mk (s.data.map Char.toLower)

def intercalateStr (sep : String) : List String → String
  | [] => ""
  | [x] => x
  | x :: xs => x ++ sep ++ intercalateStr sep xs

/- ------------------------------------------------------------------ -/
/- TMDL definition-file parser (pbip_extractor._parse_tmdl_file).     -/
/- ------------------------------------------------------------------ -/

structure TmdlColumn where
  name : String
  dataType : String
deriving DecidableEq, Repr

structure TmdlMeasure where
  name : String
  dax : String
deriving DecidableEq, Repr

structure TmdlTable where
  name : String
  columns : List TmdlColumn
  measures : List TmdlMeasure
deriving DecidableEq, Repr

/-- Relationship accumulator; "" models a key absent from the Python dict
(the code only tests these values for truthiness, where missing and "" agree). -/
structure TmdlRel where
  from_table : String := ""
  from_column : String := ""
  to_table : String := ""
  to_column : String := ""
  cardinality : String := ""
  cross_filter : String := ""
deriving DecidableEq, Repr

structure TmdlResult where
  tables : List TmdlTable
  relationships : List TmdlRel
deriving DecidableEq, Repr

/-- Scanner state of _parse_tmdl_file. -/
structure PState where
  tables : List TmdlTable := []
  rels : List TmdlRel := []
  current_table : Option TmdlTable := none
  current_column : Option TmdlColumn := none
  current_measure : Option TmdlMeasure := none
  in_measure_expr : Bool := false
  measure_expr_lines : List String := []
  in_relationship : Bool := false
  rel_buf : TmdlRel := {}
deriving DecidableEq, Repr

/-- flush_measure in the source: attach a pending measure to the current table. -/
def flush_measure (st : PState) : PState :=
  let st' :=
    match st.current_measure, st.current_table with
    | some m, some t =>
      let m :=
        if st.measure_expr_lines.isEmpty then m
        else { m with dax := pyStrip (intercalateStr "\n" st.measure_expr_lines) }
      { st with current_table := some { t with measures := t.measures ++ [m] } }
    | _, _ => st
  { st' with current_measure := none, in_measure_expr := false, measure_expr_lines := [] }

/-- flush_column in the source. -/
def flush_column (st : PState) : PState :=
  let st' :=
    match st.current_column, st.current_table with
    | some c, some t =>
      { st with current_table := some { t with columns := t.columns ++ [c] } }
    | _, _ => st
  { st' with current_column := none }

/-- Effect of the optional quotes in the captures of
"table/column" header regexes: one leading and one trailing quote
are absorbed when a nonempty capture remains. -/
def stripOuterQuotes (s : String) : String :=
  let l := s.data
  let l1 := if 2 ≤ l.length && l.head? = some '\'' then l.drop 1 else l
  let l2 := if 2 ≤ l1.length && l1.getLast? = some '\'' then l1.dropLast else l1
  String.mk l2

/-- Regex match for a table header on the stripped line. -/
def table_match (stripped : String) : Option String :=
  let cs := stripped.data
  if ("table".data).isPrefixOf cs then
    match cs.drop 5 with
    | [] => none
    | c :: rest => if isWsChar c then some (stripOuterQuotes (String.mk ((c :: rest).dropWhile isWsChar))) else none
  else none

/-- Regex match for a column header on the raw line, with the
.strip().strip(quote) post-processing the source applies to the capture. -/
def col_match (raw : String) : Option String :=
  if hasLeadingWs raw then
    let cs := (pyStrip raw).data
    if ("column".data).isPrefixOf cs then
      match cs.drop 6 with
      | [] => none
      | c :: rest =>
        if isWsChar c then
          some (stripQuotesBoth (pyStrip (stripOuterQuotes (String.mk ((c :: rest).dropWhile isWsChar)))))
        else none
    else none
  else none

/-- Measure-name capture: the regex absorbs one leading quote, trailing
whitespace before the equals sign, and one trailing quote. -/
def measureNameCapture (namePart : List Char) : String :=
  let l1 := if namePart.head? = some '\'' then namePart.drop 1 else namePart
  let l2 := dropRightWhileChars isWsChar l1
  let l3 := if 2 ≤ l2.length && l2.getLast? = some '\'' then l2.dropLast else l2
  String.mk l3

/-- Split a measure header body at the first equals sign that leaves a
nonempty name part (lazy-group regex semantics). -/
def splitAtEq (l : List Char) : Option (List Char × List Char) :=
  match l with
  | [] => none
  | c :: rest => (splitOnceChar '=' rest).map (fun p => (c :: p.1, p.2))

/-- Regex match for a measure header on the raw line; returns
(name after .strip().strip(quote), expression start after .strip()). -/
def measure_match (raw : String) : Option (String × String) :=
  if hasLeadingWs raw then
    let cs := (pyStrip raw).data
    if ("measure".data).isPrefixOf cs then
      match cs.drop 7 with
      | [] => none
      | c :: rest =>
        if isWsChar c then
          match splitAtEq ((c :: rest).dropWhile isWsChar) with
          | some (namePart, exprPart) =>
            some (stripQuotesBoth (pyStrip (measureNameCapture namePart)), pyStrip (String.mk exprPart))
          | none => none
        else none
    else none
  else none

/-- Property keywords that terminate a measure expression in the source. -/
def measure_prop_keywords : List String :=
  ["formatString", "displayFolder", "annotation", "isHidden", "description",
   "kpiStatusExpression", "kpiTargetExpression", "lineageTag", "summarizeBy", "dataCategory"]

/-- Regex match for a measure-terminating property line on the raw line. -/
def prop_match (raw : String) : Bool :=
  hasLeadingWs raw &&
  (let cs := (pyStrip raw).data
   measure_prop_keywords.any (fun kw =>
     kw.data.isPrefixOf cs && ((cs.drop kw.length).dropWhile isWsChar).head? = some ':'))

/-- Value after the first colon on the line (Python split(colon, 1)[1]). -/
def afterColon (stripped : String) : String :=
  match splitOnceChar ':' stripped.data with
  | some (_, v) => String.mk v
  | none => ""

/-- Relationship property lines: table/column values are stripped of
whitespace and quotes, cardinality and cross-filter of whitespace only. -/
def relLineStep (st : PState) (stripped : String) (indent : Nat) : PState :=
  if startsWithStr "fromTable:" stripped then
    { st with rel_buf := { st.rel_buf with from_table := stripQuotesBoth (pyStrip (afterColon stripped)) } }
  else if startsWithStr "fromColumn:" stripped then
    { st with rel_buf := { st.rel_buf with from_column := stripQuotesBoth (pyStrip (afterColon stripped)) } }
  else if startsWithStr "toTable:" stripped then
    { st with rel_buf := { st.rel_buf with to_table := stripQuotesBoth (pyStrip (afterColon stripped)) } }
  else if startsWithStr "toColumn:" stripped then
    { st with rel_buf := { st.rel_buf with to_column := stripQuotesBoth (pyStrip (afterColon stripped)) } }
  else if startsWithStr "cardinality:" stripped then
    { st with rel_buf := { st.rel_buf with cardinality := pyStrip (afterColon stripped) } }
  else if startsWithStr "crossFilteringBehavior:" stripped then
    { st with rel_buf := { st.rel_buf with cross_filter := pyStrip (afterColon stripped) } }
  else if indent = 0 then
    -- The line that returns to top indentation ends the block and is consumed.
    let st :=
      if st.rel_buf.from_table ≠ "" && st.rel_buf.to_table ≠ "" then
        { st with rels := st.rels ++ [st.rel_buf] }
      else st
    { st with in_relationship := false, rel_buf := {} }
  else st

def openTable (st : PState) (nm : String) : PState :=
  let st := flush_column (flush_measure st)
  let st :=
    match st.current_table with
    | some t => { st with tables := st.tables ++ [t] }
    | none => st
  { st with current_table := some { name := nm, columns := [], measures := [] },
            current_column := none, current_measure := none }

def startMeasure (st : PState) (nm exprStart : String) : PState :=
  let st := flush_column (flush_measure st)
  { st with current_measure := some { name := nm, dax := "" },
            in_measure_expr := true,
            measure_expr_lines := if exprStart ≠ "" then [exprStart] else [] }

def openColumn (st : PState) (nm : String) : PState :=
  let st := flush_measure (flush_column st)
  { st with current_column := some { name := nm, dataType := "unknown" } }

/-- One iteration of the line loop of _parse_tmdl_file. -/
def tmdlStep (st : PState) (raw : String) : PState :=
  let stripped := pyStrip raw
  if stripped = "" then st
  else
    let indent := getIndent raw
    if startsWithStr "relationship" stripped then
      flush_column (flush_measure { st with in_relationship := true, rel_buf := {} })
    else if st.in_relationship then
      relLineStep st stripped indent
    else if (table_match stripped).isSome && indent = 0 then
      openTable st ((table_match stripped).getD "")
    else if st.current_table.isNone then st
    else
      match measure_match raw with
      | some (mn, me) => startMeasure st mn me
      | none =>
        if st.in_measure_expr && st.current_measure.isSome then
          if prop_match raw then flush_measure st
          else { st with measure_expr_lines := st.measure_expr_lines ++ [stripped] }
        else
          match col_match raw with
          | some cn => openColumn st cn
          | none =>
            if st.current_column.isSome && startsWithStr "dataType:" stripped then
              match st.current_column with
              | some c => { st with current_column := some { c with dataType := pyStrip (afterColon stripped) } }
              | none => st
            else st

/-- End-of-input flush of _parse_tmdl_file. -/
def tmdlFinish (st : PState) : TmdlResult :=
  let st := flush_column (flush_measure st)
  let tables :=
    match st.current_table with
    | some t => st.tables ++ [t]
    | none => st.tables
  let rels :=
    if st.in_relationship && st.rel_buf.from_table ≠ "" then st.rels ++ [st.rel_buf]
    else st.rels
  ⟨tables, rels⟩

def parse_tmdl_lines (lines : List String) : TmdlResult :=
  tmdlFinish (lines.foldl tmdlStep {})

/-- Parse a whole definition-file text (the source reads the file and
splits it into lines; a possible final empty line is a no-op). -/
def parse_tmdl (text : String) : TmdlResult :=
  parse_tmdl_lines (splitStr '\n' text)

/-- C4 (confirmed): parsing a definition-file text declaring table Sales
with one column OrderId (dataType int64) and one measure Total Revenue
whose expression is SUM(Sales[Amount]) followed by a formatString property
line yields exactly one table named Sales with exactly that one column and
exactly that one measure, the formatString line excluded from the
expression text. -/
theorem c4_tmdl_round_trip :
    parse_tmdl ("table Sales\n\tcolumn OrderId\n\t\tdataType: int64\n\n\tmeasure 'Total Revenue' =\n\t\t\tSUM(Sales[Amount])\n\t\tformatString: #,##0.00\n")
      = ⟨[⟨"Sales", [⟨"OrderId", "int64"⟩], [⟨"Total Revenue", "SUM(Sales[Amount])"⟩]⟩], []⟩ := by
  decide

/- ------------------------------------------------------------------ -/
/- Visual-binding resolvers (modern queryState and legacy queryRef).  -/
/- ------------------------------------------------------------------ -/

/-- A field reference extracted from a visual binding (name + owning entity). -/
structure FieldRef where
  name : String
  entity : String
deriving DecidableEq, Repr

/-- One projection field of the modern (queryState) shape, after the
dictionary-path navigation of _extract_field_refs_v2; "" stands for a key
missing along the navigated path (the code defaults each .get to ""). -/
inductive ProjField where
  | measureF (entity prop : String)
  | columnF (entity prop : String)
  | aggregationF (entity prop : String)
  | hierarchyF (entity prop level : String)
  | otherF
deriving DecidableEq, Repr

/-- Accumulator of _extract_field_refs_v2 and of the legacy projection loop. -/
structure ExtractState where
  seen : List (String × String) := []
  measures : List FieldRef := []
  columns : List FieldRef := []
deriving DecidableEq, Repr

/-- Body of the projection loop of _extract_field_refs_v2 for one field. -/
def processProjField (st : ExtractState) (f : ProjField) : ExtractState :=
  match f with
  | .measureF entity prop =>
    if entity ≠ "" && prop ≠ "" && !st.seen.contains (entity, prop) then
      { st with seen := st.seen ++ [(entity, prop)], measures := st.measures ++ [⟨prop, entity⟩] }
    else st
  | .columnF entity prop =>
    if entity ≠ "" && prop ≠ "" && !st.seen.contains (entity, prop) then
      { st with seen := st.seen ++ [(entity, prop)], columns := st.columns ++ [⟨prop, entity⟩] }
    else st
  | .aggregationF entity prop =>
    if entity ≠ "" && prop ≠ "" && !st.seen.contains (entity, prop) then
      { st with seen := st.seen ++ [(entity, prop)], columns := st.columns ++ [⟨prop, entity⟩] }
    else st
  | .hierarchyF entity prop level =>
    let display := if level ≠ "" then prop ++ " (" ++ level ++ ")" else prop
    if entity ≠ "" && display ≠ "" && !st.seen.contains (entity, display) then
      { st with seen := st.seen ++ [(entity, display)], columns := st.columns ++ [⟨display, entity⟩] }
    else st
  | .otherF => st

/-- _extract_field_refs_v2: queryState is an ordered list of
(role name, role data); role data is none when not a dict, otherwise the
projections list.  Returns (measures, columns). -/
def extract_field_refs_v2 (qs : List (String × Option (List ProjField))) : List FieldRef × List FieldRef :=
  let st := qs.foldl
    (fun st rp =>
      match rp.2 with
      | none => st
      | some projs => projs.foldl processProjField st)
    {}
  (st.measures, st.columns)

/-- Roles that carry measures (identical constant in both extractor files). -/
def MEASURE_ROLES : List String :=
  ["Y", "Values", "Tooltips", "Size", "Color", "Details",
   "TargetValue", "TrendLine", "Indicator", "Goal",
   "KPIIndicatorValue", "KPIStatus", "KPITrend"]

/-- Capture of the aggregation regex on a queryRef string: a nonempty run of
word characters, an opening parenthesis, a nonempty inner text, a closing
parenthesis at the end. -/
def aggCapture (l : List Char) : Option (List Char) :=
  let w := l.takeWhile isWordChar
  let rest := l.drop w.length
  if w.length ≥ 1 && rest.head? = some '(' && rest.getLast? = some ')' && rest.length ≥ 3 then
    some (rest.drop 1).dropLast
  else none

/-- _parse_queryref: returns (entity, property, is aggregation). -/
def parse_queryref (query_ref : String) : String × String × Bool :=
  let inner0 := pyStrip query_ref
  let (inner, isAgg) :=
    match aggCapture inner0.data with
    | some mid => (String.mk mid, true)
    | none => (inner0, false)
  match splitOnceChar '.' inner.data with
  | some (a, b) => (pyStrip (String.mk a), pyStrip (String.mk b), isAgg)
  | none => ("", pyStrip inner, isAgg)

/-- Body of the legacy projection loop in _discover_pages_from_layout for one
queryRef string ("" models a missing queryRef key, which the code skips). -/
def legacyProjStep (st : ExtractState) (role : String) (qref : String) : ExtractState :=
  if qref = "" then st
  else
    let epa := parse_queryref qref
    let entity := epa.1
    let prop := epa.2.1
    let isAgg := epa.2.2
    if st.seen.contains (entity, prop) || prop = "" then st
    else
      let st := { st with seen := st.seen ++ [(entity, prop)] }
      if MEASURE_ROLES.contains role || isAgg then
        { st with measures := st.measures ++ [⟨prop, entity⟩] }
      else
        { st with columns := st.columns ++ [⟨prop, entity⟩] }

/-- Legacy (monolithic layout) binding extraction: projections is an ordered
list of (role name, queryRef strings).  Returns (measures, columns). -/
def extract_legacy_refs (projections : List (String × List String)) : List FieldRef × List FieldRef :=
  let st := projections.foldl
    (fun st rq => rq.2.foldl (fun st q => legacyProjStep st rq.1 q) st) {}
  (st.measures, st.columns)

/- ------------------------------------------------------------------ -/
/- Pages and the page-ordering resolver.                              -/
/- ------------------------------------------------------------------ -/

structure Visual where
  visual_id : String := ""
  visual_type : String := "unknown"
  title : String := ""
  measures : List FieldRef := []
  columns : List FieldRef := []
  width : Nat := 0
  height : Nat := 0
deriving DecidableEq, Repr

structure Page where
  name : String
  display_name : String
  ordinal : Nat
  is_hidden : Bool := false
  visuals : List Visual := []
deriving DecidableEq, Repr

/-- Run-collapsing helper for norm_str (prevSep = previous output was the
separator of the current run). -/
def collapseRunsAux : Bool → List Char → List Char
  | _, [] => []
  | prevSep, c :: rest =>
    if isWsChar c || c = '_' then
      if prevSep then collapseRunsAux true rest
      else '_' :: collapseRunsAux true rest
    else c :: collapseRunsAux false rest

/-- The _norm helper of _order_pages_by_resource_packages: non-word
characters to spaces, lowercase, strip, collapse whitespace/underscore runs
to a single underscore, strip underscores. -/
def norm_str (s : String) : String :=
  let step1 := s.data.map (fun c => if isWordChar c || isWsChar c then c else ' ')
  let lowered := step1.map Char.toLower
  let strippedL := dropRightWhileChars isWsChar (lowered.dropWhile isWsChar)
  let collapsed := collapseRunsAux false strippedL
  String.mk (dropRightWhileChars (fun c => c = '_') (collapsed.dropWhile (fun c => c = '_')))

/-- Length of the longest common prefix (the loop of _word_sim). -/
def commonLen : List Char → List Char → Nat
  | c1 :: r1, c2 :: r2 => if c1 = c2 then commonLen r1 r2 + 1 else 0
  | _, _ => 0

/-- Python float similarity values are modelled as exact nonnegative
fractions with a positive denominator; all similarity values in this code
are small exact ratios, and comparison is by cross multiplication. -/
structure Score where
  num : Nat
  den : Nat
  den_pos : 0 < den

/-- Strict comparison a < b of fraction values. -/
def Score.blt (a b : Score) : Bool :=
  a.num * b.den < b.num * a.den

/-- Nonstrict comparison of fraction values (specification side). -/
def Score.le (a b : Score) : Prop :=
  a.num * b.den ≤ b.num * a.den

def Score.zero : Score := ⟨0, 1, Nat.one_pos⟩

def Score.one : Score := ⟨1, 1, Nat.one_pos⟩

def Score.add (a b : Score) : Score :=
  ⟨a.num * b.den + b.num * a.den, a.den * b.den, Nat.mul_pos a.den_pos b.den_pos⟩

/-- _word_sim: longest-common-prefix fraction. -/
def word_sim (w1 w2 : String) : Score :=
  if h : w1 = w2 then Score.one
  else
    ⟨commonLen w1.data w2.data, max w1.length w2.length, by
      refine Nat.pos_of_ne_zero fun h0 => h ?_
      have h1 := Nat.max_eq_zero_iff.mp h0
      cases w1 with
      | mk d1 =>
        cases w2 with
        | mk d2 =>
          have e1 : d1 = [] := List.length_eq_zero.mp h1.1
          have e2 : d2 = [] := List.length_eq_zero.mp h1.2
          rw [e1, e2]⟩

/-- Python max over a list of score values with a default (the first
maximum wins; only the value is used here). -/
def pyMaxScore (dflt : Score) : List Score → Score
  | [] => dflt
  | x :: xs => xs.foldl (fun a b => if Score.blt a b then b else a) x

/-- _overlap_score: sum over page words of the best similarity against any
image word. -/
def overlap_score (page_norm png_stem : String) : Score :=
  let page_words := splitStr '_' page_norm
  let png_words := splitStr '_' png_stem
  (page_words.map (fun pw => pyMaxScore Score.zero (png_words.map (fun sw => word_sim pw sw)))).foldl
    Score.add Score.zero

/-- The page_by_norm dictionary built by insertion over pages (a later page
with the same normalised display name overwrites an earlier one). -/
def page_by_norm (pages : List Page) (s : String) : Option Page :=
  pages.reverse.find? (fun p => norm_str p.display_name == s)

/-- Pass 1 of the image-resource heuristic: slot idx holds the page whose
normalised display name equals the idx-th PNG stem, if any. -/
def pass1_slots (pages : List Page) (png_order : List String) : List (Option Page) :=
  png_order.map (page_by_norm pages)

/-- The matched_norms set after pass 1 (exactly the stems that found a page). -/
def matched_norms_pass1 (pages : List Page) (png_order : List String) : List String :=
  png_order.filter (fun s => (page_by_norm pages s).isSome)

/-- Pages still unmatched after pass 1, in original order. -/
def unmatched_pass1 (pages : List Page) (png_order : List String) : List Page :=
  pages.filter (fun p => !(matched_norms_pass1 pages png_order).contains (norm_str p.display_name))

/-- Python max(list, key=f): first element attaining the maximum key. -/
def pyMaxBy {α : Type} (f : α → Score) : List α → Option α
  | [] => none
  | x :: xs => some (xs.foldl (fun best y => if Score.blt (f best) (f y) then y else best) x)

/-- Pass 2 of the image-resource heuristic: walk the slots in order; an
already-filled slot is kept; an empty slot takes the best-scoring page still
unmatched (skipped when no pages remain).  Returns the slots and the
leftover unmatched pages. -/
def pass2 (score : Page → String → Score) :
    List (Option Page × String) → List Page → List (Option Page) × List Page
  | [], unmatched => ([], unmatched)
  | (some p, _) :: rest, unmatched =>
    let ru := pass2 score rest unmatched
    (some p :: ru.1, ru.2)
  | (none, stem) :: rest, unmatched =>
    match pyMaxBy (fun p => score p stem) unmatched with
    | none =>
      let ru := pass2 score rest unmatched
      (none :: ru.1, ru.2)
    | some best =>
      let ru := pass2 score rest (unmatched.erase best)
      (some best :: ru.1, ru.2)

/-- The score used by pass 2 in the source. -/
def page_png_score (p : Page) (stem : String) : Score :=
  overlap_score (norm_str p.display_name) stem

def setOrdinal (n : Nat) (p : Page) : Page := { p with ordinal := n }

/-- Ordinal stamping loop (for i, p in enumerate: p.ordinal = i). -/
def stampFrom (i : Nat) : List Page → List Page
  | [] => []
  | p :: ps => setOrdinal i p :: stampFrom (i + 1) ps

structure ResourceItem where
  type : String
  name : String
deriving DecidableEq, Repr

structure ResourcePackage where
  type : String
  items : List ResourceItem
deriving DecidableEq, Repr

/-- PNG stem extraction from resourcePackages (skips non-RegisteredResources
packages, non-Image items, non-PNG names and SVG-derived icons). -/
def png_order_of (pkgs : List ResourcePackage) : List String :=
  pkgs.foldl
    (fun acc pkg =>
      if pkg.type ≠ "RegisteredResources" then acc
      else acc ++ pkg.items.filterMap (fun it =>
        if it.type == "Image" && endsWithStr ".png" it.name && !containsSub ".svg" it.name then
          some (String.mk (it.name.data.take (it.name.data.length - 4)))
        else none))
    []

/-- _order_pages_by_resource_packages; none models an unreadable report.json. -/
def order_pages_by_resource_packages (pages : List Page)
    (report_data : Option (List ResourcePackage)) : List Page :=
  match report_data with
  | none => pages
  | some pkgs =>
    let png_order := png_order_of pkgs
    if png_order.isEmpty then pages
    else
      let slots := (pass1_slots pages png_order).zip png_order
      let unmatched := unmatched_pass1 pages png_order
      let ru := pass2 page_png_score slots unmatched
      stampFrom 0 (ru.1.filterMap id ++ ru.2)

/-- Parsed pages.json content; a missing pageOrder key is the empty list. -/
structure PagesJsonData where
  pageOrder : List String := []
deriving DecidableEq, Repr

/-- Index of the last occurrence of a name (the order_map dict is written in
enumeration order, so a later duplicate overwrites an earlier one). -/
def lastIndexOf (l : List String) (nm : String) : Option Nat :=
  (l.enum.reverse.find? (fun p => p.2 == nm)).map (·.1)

def orderMapGet (l : List String) (nm : String) : Nat :=
  (lastIndexOf l nm).getD 9999

/-- Stable insertion used to model Python sorted/list.sort (both stable). -/
def sortInsert {α : Type} (key : α → Nat) (x : α) : List α → List α
  | [] => [x]
  | y :: ys => if key y < key x then y :: sortInsert key x ys else x :: y :: ys

def stableSortBy {α : Type} (key : α → Nat) (l : List α) : List α :=
  l.foldr (sortInsert key) []

/-- _order_pages_by_pages_json; the outer none models an unreadable
pages.json file. -/
def order_pages_by_pages_json (pages : List Page) (data : Option PagesJsonData) : List Page :=
  match data with
  | none => pages
  | some d =>
    if d.pageOrder.isEmpty then pages
    else stampFrom 0 (stableSortBy (fun p => orderMapGet d.pageOrder p.name) pages)

/-- Ordering dispatch at the end of discover_report_pages: pages.json when
present, else report.json resource order, else sort by declared ordinal.
The outer Option encodes file presence, the inner one parse success. -/
def resolve_page_order (pages : List Page)
    (pages_json : Option (Option PagesJsonData))
    (report_json : Option (Option (List ResourcePackage))) : List Page :=
  match pages_json with
  | some parsed => order_pages_by_pages_json pages parsed
  | none =>
    match report_json with
    | some parsed => order_pages_by_resource_packages pages parsed
    | none => stableSortBy (fun p => p.ordinal) pages

/- ------------------------------------------------------------------ -/
/- Query synthesis (build_dax_queries and _build_dax_for_visual).     -/
/- ------------------------------------------------------------------ -/

/-- One flattened model measure record (table, name, expression). -/
structure ModelMeasure where
  table : String
  name : String
  dax : String
deriving DecidableEq, Repr

/-- The aggregated model as consumed by build_dax_queries (only the
measures list is read there). -/
structure SemModel where
  measures : List ModelMeasure := []
deriving DecidableEq, Repr

/-- measure_dax_lookup under a (table, name) tuple key; the dict is written
in list order, so a later measure with the same key overwrites an earlier. -/
def lookup_pair (ms : List ModelMeasure) (t n : String) : Option String :=
  (ms.reverse.find? (fun m => m.table == t && m.name == n)).map (·.dax)

/-- measure_dax_lookup under the name-only fallback key. -/
def lookup_name (ms : List ModelMeasure) (n : String) : Option String :=
  (ms.reverse.find? (fun m => m.name == n)).map (·.dax)

/-- Python `a or b` for an optional string against a default: a missing key
and an empty string both fall through. -/
def pyOrStr (a : Option String) (b : String) : String :=
  match a with
  | some s => if s = "" then b else s
  | none => b

/-- The or-chained expression lookup in build_dax_queries. -/
def measureDaxExpr (model : SemModel) (entity nm : String) : String :=
  pyOrStr (lookup_pair model.measures entity nm) (pyOrStr (lookup_name model.measures nm) "")

/-- The sentinel recorded when no expression resolves. -/
def daxSentinel : String := "(expression not found in model)"

def quoteEntity (nm : String) : String :=
  if containsSub " " nm then "'" ++ nm ++ "'" else nm

def card_vtypes : List String := ["card", "kpiVisual", "singleValue", "gauge", "multiRowCard"]

/-- _build_dax_for_visual. -/
def build_dax_for_visual (vtype mname mentity : String) (bound_columns : List FieldRef) : String :=
  let safe_measure := "[" ++ mname ++ "]"
  if card_vtypes.contains vtype then
    "EVALUATE\nROW(\"" ++ mname ++ "\", " ++ safe_measure ++ ")"
  else
    match bound_columns.find? (fun c => c.entity != "") with
    | some c =>
      "EVALUATE\nTOPN(\n    20,\n    SUMMARIZECOLUMNS(\n        "
        ++ quoteEntity c.entity ++ "[" ++ c.name ++ "]"
        ++ ",\n        \"" ++ mname ++ "\", " ++ safe_measure
        ++ "\n    ),\n    " ++ safe_measure ++ ", DESC\n)"
    | none => "EVALUATE\nROW(\"" ++ mname ++ "\", " ++ safe_measure ++ ")"

structure Query where
  label : String
  visual_type : String
  measure_name : Option String
  measure_entity : String
  dax : String
  measure_dax : String
deriving DecidableEq, Repr

def skip_vtypes : List String := ["slicer", "actionButton", "image", "textbox", "shape", "unknown"]

def table_vtypes : List String := ["table", "matrix", "tableEx"]

/-- The per-visual measure loop of build_dax_queries (the caller passes the
measure list already capped with [:3]); threads (queries, seen_queries). -/
def visual_measure_loop (vtype : String) (vcols : List FieldRef) (model : SemModel) :
    List FieldRef → List Query × List String → List Query × List String
  | [], acc => acc
  | m :: rest, (qs, seen) =>
    let query_key := vtype ++ ":" ++ m.entity ++ ":" ++ m.name
    if seen.contains query_key then visual_measure_loop vtype vcols model rest (qs, seen)
    else
      let seen := seen ++ [query_key]
      let dax_expr := measureDaxExpr model m.entity m.name
      let dax_query := build_dax_for_visual vtype m.name m.entity vcols
      if dax_query ≠ "" then
        let q : Query :=
          { label := vtype ++ " — " ++ m.name,
            visual_type := vtype,
            measure_name := some m.name,
            measure_entity := m.entity,
            dax := dax_query,
            measure_dax := if dax_expr = "" then daxSentinel else dax_expr }
        visual_measure_loop vtype vcols model rest (qs ++ [q], seen)
      else visual_measure_loop vtype vcols model rest (qs, seen)

/-- Measure-based queries of one visual: the loop over v_measures[:3],
started with an empty fresh query list and the page-level seen set. -/
def visual_measure_queries (vtype : String) (vms vcols : List FieldRef) (model : SemModel)
    (seen : List String) : List Query × List String :=
  visual_measure_loop vtype vcols model (vms.take 3) ([], seen)

/-- The column-only loop of build_dax_queries (caller passes v_columns[:2]). -/
def visual_column_loop (vtype : String) :
    List FieldRef → List Query × List String → List Query × List String
  | [], acc => acc
  | c :: rest, (qs, seen) =>
    let query_key := vtype ++ ":col:" ++ c.entity ++ ":" ++ c.name
    if seen.contains query_key || c.entity == "" then visual_column_loop vtype rest (qs, seen)
    else
      let seen := seen ++ [query_key]
      let dax := "EVALUATE\nTOPN(20, SUMMARIZECOLUMNS('" ++ c.entity ++ "'[" ++ c.name ++ "]))"
      let q : Query :=
        { label := "table — " ++ c.name,
          visual_type := vtype,
          measure_name := none,
          measure_entity := c.entity,
          dax := dax,
          measure_dax := "" }
      visual_column_loop vtype rest (qs ++ [q], seen)

/-- Per-visual body of the page loop of build_dax_queries. -/
def process_visual (model : SemModel) (acc : List Query × List String) (v : Visual) :
    List Query × List String :=
  let vtype := v.visual_type
  if skip_vtypes.contains vtype then acc
  else
    let mq := visual_measure_queries vtype v.measures v.columns model acc.2
    let acc1 := (acc.1 ++ mq.1, mq.2)
    if v.measures.isEmpty && !v.columns.isEmpty && table_vtypes.contains vtype then
      let cq := visual_column_loop vtype (v.columns.take 2) ([], acc1.2)
      (acc1.1 ++ cq.1, cq.2)
    else acc1

structure QueryGroup where
  slide_number : Nat
  page_name : String
  queries : List Query
deriving DecidableEq, Repr

/-- The enumerate(pages, start=1) loop of build_dax_queries. -/
def build_dax_queries_from (n : Nat) (model : SemModel) : List Page → List QueryGroup
  | [] => []
  | p :: ps =>
    { slide_number := n, page_name := p.display_name,
      queries := (p.visuals.foldl (process_visual model) ([], [])).1 }
      :: build_dax_queries_from (n + 1) model ps

def build_dax_queries (pages : List Page) (model : SemModel) : List QueryGroup :=
  build_dax_queries_from 1 model pages

/- ------------------------------------------------------------------ -/
/- Hidden-page filtering and slide metadata (prepare entry points).   -/
/- ------------------------------------------------------------------ -/

/-- The visible_pages filter of both prepare entry points. -/
def visible_pages (pages : List Page) : List Page :=
  pages.filter (fun p => !p.is_hidden)

/-- _classify_page_type (pbip) and _classify_slide_type (pbix) share this
identical keyword cascade. -/
def classify_page_type (display_name : String) : String :=
  let n := toLowerStr display_name
  if containsSub "trend" n || containsSub "over time" n then "trends"
  else if containsSub "leaderboard" n || containsSub "top" n then "leaderboard"
  else if containsSub "health" n || containsSub "overview" n then "health_check"
  else if containsSub "habit" n || containsSub "frequency" n then "habit_formation"
  else if containsSub "license" n || containsSub "priority" n then "license_priority"
  else "general"

structure SlideMeta where
  slide_number : Nat
  title : String
  image_path : Option String
  slide_type : String
  source_type : String
deriving DecidableEq, Repr

/-- The slides_meta loop of the prepare entry points; im is the page_images
mapping obtained from screenshot or companion extraction (I/O, kept
abstract). -/
def slides_meta_from (n : Nat) (src : String) (im : Nat → Option String) :
    List Page → List SlideMeta
  | [] => []
  | p :: ps =>
    { slide_number := n, title := p.display_name, image_path := im n,
      slide_type := classify_page_type p.display_name, source_type := src }
      :: slides_meta_from (n + 1) src im ps

def pbip_slides_meta (vis : List Page) (im : Nat → Option String) : List SlideMeta :=
  slides_meta_from 1 "pbip" im vis

def pbix_slides_meta (vis : List Page) (im : Nat → Option String) : List SlideMeta :=
  slides_meta_from 1 "pbix" im vis

/- ------------------------------------------------------------------ -/
/- Specification-side definitions used to state the claims.           -/
/- ------------------------------------------------------------------ -/

/-- Modelled from the spec (globally greedy best-match assignment): among
all remaining (slot, page) pairs pick one with the globally highest score
(the first such pair in slot-major, page-minor order), assign it, remove
both, and repeat until slots or pages are exhausted.  Used to compare the
source behaviour against the claimed globally greedy assignment. -/
def spec_global_greedy_aux (score : Page → String → Score) :
    Nat → List (Nat × String) → List Page → List (Nat × Page)
  | 0, _, _ => []
  | fuel + 1, slots, us =>
    match pyMaxBy (fun sp => score sp.2 sp.1.2)
        (slots.flatMap (fun s => us.map (fun p => (s, p)))) with
    | none => []
    | some sp =>
      (sp.1.1, sp.2) ::
        spec_global_greedy_aux score fuel
          (slots.filter (fun s => !(s.1 == sp.1.1))) (us.erase sp.2)

/-- Modelled from the spec: the globally greedy (page, image) assignment,
as a list of (slot index, page) choices in assignment order. -/
def spec_global_greedy (score : Page → String → Score) (slots : List (Nat × String))
    (us : List Page) : List (Nat × Page) :=
  spec_global_greedy_aux score (min slots.length us.length) slots us

/-- Declarative description of a per-slot greedy matching: slots are
processed in order; a filled slot is kept; an empty slot receives a page of
maximal score for that slot drawn from the remaining pool, which it leaves
diminished by that page; when the pool is empty the slot stays empty.
The final two arguments are the resulting slots and the leftover pool. -/
inductive SlotGreedy (score : Page → String → Score) :
    List (Option Page × String) → List Page → List (Option Page) → List Page → Prop
  | nil (u : List Page) : SlotGreedy score [] u [] u
  | filled (p : Page) (s : String) (rest : List (Option Page × String)) (u : List Page)
      (res : List (Option Page)) (u' : List Page) :
      SlotGreedy score rest u res u' →
      SlotGreedy score ((some p, s) :: rest) u (some p :: res) u'
  | exhausted (s : String) (rest : List (Option Page × String))
      (res : List (Option Page)) (u' : List Page) :
      SlotGreedy score rest [] res u' →
      SlotGreedy score ((none, s) :: rest) [] (none :: res) u'
  | pick (s : String) (rest : List (Option Page × String)) (u : List Page) (p : Page)
      (res : List (Option Page)) (u' : List Page)
      (hmem : p ∈ u) (hbest : ∀ q ∈ u, Score.le (score q s) (score p s)) :
      SlotGreedy score rest (u.erase p) res u' →
      SlotGreedy score ((none, s) :: rest) u (some p :: res) u'

/- ------------------------------------------------------------------ -/
/- Order lemmas for the score fractions.                              -/
/- ------------------------------------------------------------------ -/

theorem Score.le_refl (a : Score) : a.le a := Nat.le_refl _

theorem Score.le_of_blt_eq_false {a b : Score} (h : Score.blt a b = false) : Score.le b a := by
  simp only [Score.blt, decide_eq_false_iff_not, Nat.not_lt] at h
  exact h

theorem Score.le_of_blt_eq_true {a b : Score} (h : Score.blt a b = true) : Score.le a b := by
  simp only [Score.blt, decide_eq_true_eq] at h
  exact Nat.le_of_lt h

theorem Score.le_trans {a b c : Score} (h1 : a.le b) (h2 : b.le c) : a.le c := by
  unfold Score.le at h1 h2 ⊢
  have key : a.num * c.den * b.den ≤ c.num * a.den * b.den := by
    calc a.num * c.den * b.den = a.num * b.den * c.den := by ring
    _ ≤ b.num * a.den * c.den := Nat.mul_le_mul_right c.den h1
    _ = b.num * c.den * a.den := by ring
    _ ≤ c.num * b.den * a.den := Nat.mul_le_mul_right a.den h2
    _ = c.num * a.den * b.den := by ring
  exact Nat.le_of_mul_le_mul_right key b.den_pos

/- ------------------------------------------------------------------ -/
/- Behaviour of the Python max translations.                          -/
/- ------------------------------------------------------------------ -/

theorem foldl_pick_spec {α : Type} (f : α → Score) :
    ∀ (xs : List α) (b : α),
      (xs.foldl (fun best y => if Score.blt (f best) (f y) then y else best) b = b ∨
        xs.foldl (fun best y => if Score.blt (f best) (f y) then y else best) b ∈ xs) ∧
      Score.le (f b) (f (xs.foldl (fun best y => if Score.blt (f best) (f y) then y else best) b)) ∧
      ∀ q ∈ xs, Score.le (f q)
        (f (xs.foldl (fun best y => if Score.blt (f best) (f y) then y else best) b)) := by
  intro xs
  induction xs with
  | nil =>
    intro b
    refine ⟨Or.inl rfl, Score.le_refl _, ?_⟩
    intro q hq
    cases hq
  | cons x xs ih =>
    intro b
    rw [List.foldl_cons]
    cases hbx : Score.blt (f b) (f x) with
    | true =>
      rw [if_pos rfl]
      rcases ih x with ⟨hmem, hle, hall⟩
      refine ⟨?_, ?_, ?_⟩
      · rcases hmem with h | h
        · rw [h]; exact Or.inr (List.mem_cons_self x xs)
        · exact Or.inr (List.mem_cons_of_mem x h)
      · exact Score.le_trans (Score.le_of_blt_eq_true hbx) hle
      · intro q hq
        rcases List.mem_cons.mp hq with rfl | hq
        · exact hle
        · exact hall q hq
    | false =>
      rw [if_neg Bool.false_ne_true]
      rcases ih b with ⟨hmem, hle, hall⟩
      refine ⟨?_, ?_, ?_⟩
      · rcases hmem with h | h
        · exact Or.inl h
        · exact Or.inr (List.mem_cons_of_mem x h)
      · exact hle
      · intro q hq
        rcases List.mem_cons.mp hq with rfl | hq
        · exact Score.le_trans (Score.le_of_blt_eq_false hbx) hle
        · exact hall q hq

theorem pyMaxBy_mem {α : Type} (f : α → Score) {l : List α} {a : α}
    (h : pyMaxBy f l = some a) : a ∈ l := by
  cases l with
  | nil => simp [pyMaxBy] at h
  | cons x xs =>
    simp only [pyMaxBy, Option.some.injEq] at h
    rcases (foldl_pick_spec f xs x).1 with h1 | h1
    · rw [← h, h1]; exact List.mem_cons_self x xs
    · rw [← h]; exact List.mem_cons_of_mem x h1

theorem pyMaxBy_le {α : Type} (f : α → Score) {l : List α} {a : α}
    (h : pyMaxBy f l = some a) : ∀ q ∈ l, Score.le (f q) (f a) := by
  cases l with
  | nil => simp [pyMaxBy] at h
  | cons x xs =>
    simp only [pyMaxBy, Option.some.injEq] at h
    intro q hq
    rcases List.mem_cons.mp hq with rfl | hq
    · rw [← h]; exact (foldl_pick_spec f xs q).2.1
    · rw [← h]; exact (foldl_pick_spec f xs x).2.2 q hq

theorem pyMaxBy_eq_none {α : Type} (f : α → Score) {l : List α}
    (h : pyMaxBy f l = none) : l = [] := by
  cases l with
  | nil => rfl
  | cons x xs => simp [pyMaxBy] at h

/- ------------------------------------------------------------------ -/
/- Ordinal stamping and stable sorting lemmas.                        -/
/- ------------------------------------------------------------------ -/

theorem setOrdinal_setOrdinal (m n : Nat) (p : Page) :
    setOrdinal m (setOrdinal n p) = setOrdinal m p := rfl

theorem stampFrom_map_setZero : ∀ (i : Nat) (l : List Page),
    (stampFrom i l).map (setOrdinal 0) = l.map (setOrdinal 0) := by
  intro i l
  induction l generalizing i with
  | nil => rfl
  | cons p ps ih => simp [stampFrom, setOrdinal_setOrdinal, ih]

theorem stampFrom_map_ordinal : ∀ (i : Nat) (l : List Page),
    (stampFrom i l).map Page.ordinal = List.range' i l.length := by
  intro i l
  induction l generalizing i with
  | nil => rfl
  | cons p ps ih =>
    rw [List.length_cons, List.range'_succ]
    simp [stampFrom, setOrdinal, ih]

theorem stampFrom_length : ∀ (i : Nat) (l : List Page), (stampFrom i l).length = l.length := by
  intro i l
  induction l generalizing i with
  | nil => rfl
  | cons p ps ih => simp [stampFrom, ih]

theorem sortInsert_perm {α : Type} (key : α → Nat) (x : α) :
    ∀ l : List α, List.Perm (sortInsert key x l) (x :: l) := by
  intro l
  induction l with
  | nil => exact List.Perm.refl _
  | cons y ys ih =>
    by_cases h : key y < key x
    · rw [sortInsert, if_pos h]
      exact (ih.cons y).trans (List.Perm.swap x y ys)
    · rw [sortInsert, if_neg h]

theorem stableSortBy_perm {α : Type} (key : α → Nat) :
    ∀ l : List α, List.Perm (stableSortBy key l) l := by
  intro l
  induction l with
  | nil => exact List.Perm.refl _
  | cons x xs ih =>
    have h1 : stableSortBy key (x :: xs) = sortInsert key x (stableSortBy key xs) := rfl
    rw [h1]
    exact (sortInsert_perm key x (stableSortBy key xs)).trans (ih.cons x)

/- ------------------------------------------------------------------ -/
/- Pass 2 preserves the multiset of pages.                            -/
/- ------------------------------------------------------------------ -/

theorem pass2_perm (score : Page → String → Score) :
    ∀ (slots : List (Option Page × String)) (u : List Page),
      List.Perm ((pass2 score slots u).1.filterMap id ++ (pass2 score slots u).2)
        (slots.filterMap Prod.fst ++ u) := by
  intro slots
  induction slots with
  | nil =>
    intro u
    simp [pass2]
  | cons hd rest ih =>
    intro u
    rcases hd with ⟨o, stem⟩
    cases o with
    | some p =>
      simp only [pass2, List.filterMap_cons]
      simpa using (ih u).cons p
    | none =>
      rcases hmax : pyMaxBy (fun q => score q stem) u with _ | best
      · simp only [pass2, hmax]
        simpa using ih u
      · have hmem : best ∈ u := pyMaxBy_mem _ hmax
        simp only [pass2, hmax]
        have step1 :
            List.Perm
              (best :: ((pass2 score rest (u.erase best)).1.filterMap id ++
                (pass2 score rest (u.erase best)).2))
              (best :: (rest.filterMap Prod.fst ++ u.erase best)) :=
          (ih (u.erase best)).cons best
        have step2 :
            List.Perm (best :: (rest.filterMap Prod.fst ++ u.erase best))
              (rest.filterMap Prod.fst ++ (best :: u.erase best)) :=
          List.perm_middle.symm
        have step3 :
            List.Perm (rest.filterMap Prod.fst ++ (best :: u.erase best))
              (rest.filterMap Prod.fst ++ u) :=
          ((List.perm_cons_erase hmem).symm).append_left _
        simpa using (step1.trans (step2.trans step3))

/- ------------------------------------------------------------------ -/
/- Pass 1 characterisation.                                           -/
/- ------------------------------------------------------------------ -/

theorem page_by_norm_spec {pages : List Page} {s : String} {p : Page}
    (h : page_by_norm pages s = some p) : p ∈ pages ∧ norm_str p.display_name = s := by
  unfold page_by_norm at h
  have hm := List.mem_of_find?_eq_some h
  have hp := List.find?_some h
  exact ⟨List.mem_reverse.mp hm, by simpa using hp⟩

theorem page_by_norm_self {pages : List Page}
    (hN : (pages.map (fun p => norm_str p.display_name)).Nodup)
    {p : Page} (hp : p ∈ pages) :
    page_by_norm pages (norm_str p.display_name) = some p := by
  rcases hq : page_by_norm pages (norm_str p.display_name) with _ | q
  · exfalso
    unfold page_by_norm at hq
    have := List.find?_eq_none.mp hq p (List.mem_reverse.mpr hp)
    simp at this
  · rcases page_by_norm_spec hq with ⟨hqmem, hqnorm⟩
    have heq := List.inj_on_of_nodup_map hN hqmem hp hqnorm
    rw [heq]

theorem mem_pass1_assigned {pages : List Page} {png : List String}
    (hN : (pages.map (fun p => norm_str p.display_name)).Nodup) (p : Page) :
    p ∈ png.filterMap (page_by_norm pages) ↔
      norm_str p.display_name ∈ png ∧ p ∈ pages := by
  rw [List.mem_filterMap]
  constructor
  · rintro ⟨s, hs, hsome⟩
    rcases page_by_norm_spec hsome with ⟨hm, hn⟩
    exact ⟨hn ▸ hs, hm⟩
  · rintro ⟨hs, hp⟩
    exact ⟨_, hs, page_by_norm_self hN hp⟩

theorem nodup_pass1_assigned (pages : List Page) {png : List String}
    (hpng : png.Nodup) : (png.filterMap (page_by_norm pages)).Nodup := by
  refine hpng.filterMap ?_
  intro a a' b hb hb'
  have h1 := (page_by_norm_spec (Option.mem_def.mp hb)).2
  have h2 := (page_by_norm_spec (Option.mem_def.mp hb')).2
  rw [← h1, ← h2]

theorem mem_unmatched_pass1 {pages : List Page} {png : List String}
    (hN : (pages.map (fun p => norm_str p.display_name)).Nodup) (p : Page) :
    p ∈ unmatched_pass1 pages png ↔ p ∈ pages ∧ norm_str p.display_name ∉ png := by
  unfold unmatched_pass1
  rw [List.mem_filter]
  constructor
  · rintro ⟨hp, hcon⟩
    refine ⟨hp, fun hmem => ?_⟩
    have hin : norm_str p.display_name ∈ matched_norms_pass1 pages png := by
      unfold matched_norms_pass1
      rw [List.mem_filter]
      exact ⟨hmem, by rw [page_by_norm_self hN hp]; rfl⟩
    simp [hin] at hcon
  · rintro ⟨hp, hnot⟩
    refine ⟨hp, ?_⟩
    have hout : norm_str p.display_name ∉ matched_norms_pass1 pages png := by
      intro hin
      unfold matched_norms_pass1 at hin
      exact hnot (List.mem_filter.mp hin).1
    simp [hout]

theorem pass1_split_perm {pages : List Page} {png : List String}
    (hN : (pages.map (fun p => norm_str p.display_name)).Nodup)
    (hpng : png.Nodup) :
    List.Perm (png.filterMap (page_by_norm pages) ++ unmatched_pass1 pages png) pages := by
  have hPnd : pages.Nodup := List.Nodup.of_map _ hN
  have hA := nodup_pass1_assigned pages hpng
  have hB : (unmatched_pass1 pages png).Nodup := hPnd.filter _
  have hdisj : (png.filterMap (page_by_norm pages)).Disjoint (unmatched_pass1 pages png) := by
    intro a ha hb
    have h1 := ((mem_pass1_assigned hN a).mp ha).1
    have h2 := ((mem_unmatched_pass1 hN a).mp hb).2
    exact h2 h1
  refine (List.perm_ext_iff_of_nodup (hA.append hB hdisj) hPnd).2 ?_
  intro a
  rw [List.mem_append, mem_pass1_assigned hN, mem_unmatched_pass1 hN]
  constructor
  · rintro (⟨_, hp⟩ | ⟨hp, _⟩) <;> exact hp
  · intro hp
    by_cases hc : norm_str a.display_name ∈ png
    · exact Or.inl ⟨hc, hp⟩
    · exact Or.inr ⟨hp, hc⟩

theorem filterMap_fst_zip_map {β : Type} (f : String → Option β) :
    ∀ l : List String, ((l.map f).zip l).filterMap Prod.fst = l.filterMap f := by
  intro l
  induction l with
  | nil => rfl
  | cons x xs ih =>
    cases hfx : f x with
    | none => simp [List.filterMap_cons, hfx, ih]
    | some b => simp [List.filterMap_cons, hfx, ih]

/- ------------------------------------------------------------------ -/
/- Claim C1.                                                          -/
/- ------------------------------------------------------------------ -/

/-- C1 (amended): when the pageOrder manifest is present, parseable and
nonempty, the orderer returns a permutation of the input pages stamped with
distinct ordinals 0..N-1 (no duplicates, no gaps); the image-resource
heuristic guarantees the same provided the normalised page display names
and the PNG stems are each pairwise distinct.  (The declared-ordinal
fallback only sorts and does not restamp ordinals; see the
counterexample.) -/
theorem c1_page_ordering_totality
    (pages : List Page) (d : PagesJsonData) (pkgs : List ResourcePackage) :
    (d.pageOrder ≠ [] →
      (order_pages_by_pages_json pages (some d)).map Page.ordinal =
        List.range' 0 pages.length ∧
      List.Perm ((order_pages_by_pages_json pages (some d)).map (setOrdinal 0))
        (pages.map (setOrdinal 0))) ∧
    ((pages.map (fun p => norm_str p.display_name)).Nodup →
      (png_order_of pkgs).Nodup → png_order_of pkgs ≠ [] →
      (order_pages_by_resource_packages pages (some pkgs)).map Page.ordinal =
        List.range' 0 pages.length ∧
      List.Perm ((order_pages_by_resource_packages pages (some pkgs)).map (setOrdinal 0))
        (pages.map (setOrdinal 0))) := by
  constructor
  · intro hne
    have hdef : order_pages_by_pages_json pages (some d) =
        stampFrom 0 (stableSortBy (fun p => orderMapGet d.pageOrder p.name) pages) := by
      simp only [order_pages_by_pages_json]
      rw [if_neg (fun h => hne (List.isEmpty_iff.mp h))]
    rw [hdef]
    have hperm := stableSortBy_perm (fun p => orderMapGet d.pageOrder p.name) pages
    constructor
    · rw [stampFrom_map_ordinal, hperm.length_eq]
    · rw [stampFrom_map_setZero]
      exact hperm.map _
  · intro hN hpng hne
    have hdef : order_pages_by_resource_packages pages (some pkgs) =
        stampFrom 0
          ((pass2 page_png_score
              ((pass1_slots pages (png_order_of pkgs)).zip (png_order_of pkgs))
              (unmatched_pass1 pages (png_order_of pkgs))).1.filterMap id ++
            (pass2 page_png_score
              ((pass1_slots pages (png_order_of pkgs)).zip (png_order_of pkgs))
              (unmatched_pass1 pages (png_order_of pkgs))).2) := by
      simp only [order_pages_by_resource_packages]
      rw [if_neg (fun h => hne (List.isEmpty_iff.mp h))]
    have hperm0 := pass2_perm page_png_score
      ((pass1_slots pages (png_order_of pkgs)).zip (png_order_of pkgs))
      (unmatched_pass1 pages (png_order_of pkgs))
    have e1 : ((pass1_slots pages (png_order_of pkgs)).zip (png_order_of pkgs)).filterMap Prod.fst
        = (png_order_of pkgs).filterMap (page_by_norm pages) :=
      filterMap_fst_zip_map (page_by_norm pages) (png_order_of pkgs)
    rw [e1] at hperm0
    have hordperm := hperm0.trans (pass1_split_perm hN hpng)
    rw [hdef]
    constructor
    · rw [stampFrom_map_ordinal, hordperm.length_eq]
    · rw [stampFrom_map_setZero]
      exact hordperm.map _

/-- Witness for C1: a concrete two-page project ordered once through the
pageOrder manifest and once through the image-resource heuristic receives
ordinals [0, 1] in both cases. -/
theorem c1_page_ordering_totality_witness :
    (order_pages_by_pages_json
        [{ name := "pA", display_name := "Alpha", ordinal := 999 },
         { name := "pB", display_name := "Beta", ordinal := 999 }]
        (some { pageOrder := ["pB", "pA"] })).map Page.ordinal = [0, 1] ∧
    (order_pages_by_resource_packages
        [{ name := "pA", display_name := "Alpha", ordinal := 999 },
         { name := "pB", display_name := "Beta", ordinal := 999 }]
        (some [{ type := "RegisteredResources",
                 items := [{ type := "Image", name := "beta.png" },
                           { type := "Image", name := "alpha.png" }] }])).map Page.ordinal
      = [0, 1] := by
  constructor
  · have h := (c1_page_ordering_totality
      [{ name := "pA", display_name := "Alpha", ordinal := 999 },
       { name := "pB", display_name := "Beta", ordinal := 999 }]
      { pageOrder := ["pB", "pA"] } []).1 (by decide)
    exact h.1.trans (by decide)
  · have h := (c1_page_ordering_totality
      [{ name := "pA", display_name := "Alpha", ordinal := 999 },
       { name := "pB", display_name := "Beta", ordinal := 999 }]
      { pageOrder := [] }
      [{ type := "RegisteredResources",
         items := [{ type := "Image", name := "beta.png" },
                   { type := "Image", name := "alpha.png" }] }]).2
      (by decide) (by decide) (by decide)
    exact h.1.trans (by decide)

/-- Counterexample to C1 as stated: with neither pages.json nor report.json
the orderer falls back to sorting by the declared ordinal and never
restamps, so two pages that both carry the default declared ordinal 999
keep duplicated ordinals outside 0..N-1. -/
theorem c1_page_ordering_totality_counterexample :
    (resolve_page_order
        [{ name := "pA", display_name := "Alpha", ordinal := 999 },
         { name := "pB", display_name := "Beta", ordinal := 999 }]
        none none).map Page.ordinal = [999, 999] ∧
    ([999, 999] : List Nat) ≠ List.range' 0 2 := by
  constructor
  · decide
  · decide

/- ------------------------------------------------------------------ -/
/- Claim C6.                                                          -/
/- ------------------------------------------------------------------ -/

theorem pass2_slotGreedy (score : Page → String → Score) :
    ∀ (slots : List (Option Page × String)) (u : List Page),
      SlotGreedy score slots u (pass2 score slots u).1 (pass2 score slots u).2 := by
  intro slots
  induction slots with
  | nil =>
    intro u
    exact SlotGreedy.nil u
  | cons hd rest ih =>
    intro u
    rcases hd with ⟨o, stem⟩
    cases o with
    | some p =>
      have h := SlotGreedy.filled p stem rest u _ _ (ih u)
      simpa [pass2] using h
    | none =>
      rcases hmax : pyMaxBy (fun q => score q stem) u with _ | best
      · have hu : u = [] := pyMaxBy_eq_none _ hmax
        subst hu
        have h := SlotGreedy.exhausted stem rest _ _ (ih [])
        simp only [pass2, hmax]
        exact h
      · have hmem := pyMaxBy_mem _ hmax
        have hbest := pyMaxBy_le _ hmax
        have h := SlotGreedy.pick stem rest u best _ _ hmem hbest
          (ih (u.erase best))
        simp only [pass2, hmax]
        exact h

/-- C6 (amended): the second matching pass is greedy per image slot, not
globally: it walks the unfilled slots in registration order and gives each
one a page of maximal word-overlap score among the pages still unmatched
at that point, removing the chosen page from the pool (slots reached with
an empty pool stay unmatched). -/
theorem c6_pass2_per_slot_greedy :
    ∀ (slots : List (Option Page × String)) (u : List Page),
      SlotGreedy page_png_score slots u
        (pass2 page_png_score slots u).1 (pass2 page_png_score slots u).2 :=
  pass2_slotGreedy page_png_score

def c6_pageA : Page := { name := "p1", display_name := "abcd", ordinal := 999 }

def c6_pageB : Page := { name := "p2", display_name := "axz", ordinal := 999 }

def c6_pkgs : List ResourcePackage :=
  [{ type := "RegisteredResources",
     items := [{ type := "Image", name := "ab.png" },
               { type := "Image", name := "abc.png" }] }]

/-- Counterexample to C6 as stated: the globally best-scoring pair is
(pageA, second image slot) with score 3/4, but the source walks the slots
in order and hands pageA to the first slot (score 1/2); the spec-modelled
globally greedy assignment therefore transposes the result relative to the
code. -/
theorem c6_global_greedy_counterexample :
    pass2 page_png_score
        ((pass1_slots [c6_pageA, c6_pageB] ["ab", "abc"]).zip ["ab", "abc"])
        (unmatched_pass1 [c6_pageA, c6_pageB] ["ab", "abc"])
      = ([some c6_pageA, some c6_pageB], []) ∧
    spec_global_greedy page_png_score [(0, "ab"), (1, "abc")] [c6_pageA, c6_pageB]
      = [(1, c6_pageA), (0, c6_pageB)] ∧
    order_pages_by_resource_packages [c6_pageA, c6_pageB] (some c6_pkgs)
      = [setOrdinal 0 c6_pageA, setOrdinal 1 c6_pageB] ∧
    c6_pageA ≠ c6_pageB := by
  refine ⟨by decide, by decide, by decide, by decide⟩

/- ------------------------------------------------------------------ -/
/- Claim C5.                                                          -/
/- ------------------------------------------------------------------ -/

theorem isPrefixOf_cons_cons (a b : Char) (as bs : List Char) :
    List.isPrefixOf (a :: as) (b :: bs) = (a == b && List.isPrefixOf as bs) := rfl

theorem startsWith_false_of_two (key s : String) (k1 k2 : Char) (kt : List Char)
    (c1 c2 : Char) (ct : List Char)
    (hk : key.data = k1 :: k2 :: kt) (hs : s.data = c1 :: c2 :: ct)
    (h : k1 ≠ c1 ∨ k2 ≠ c2) : startsWithStr key s = false := by
  unfold startsWithStr
  rw [hk, hs, isPrefixOf_cons_cons, isPrefixOf_cons_cons]
  rcases h with h | h
  · simp [beq_eq_false_iff_ne.mpr h]
  · simp [beq_eq_false_iff_ne.mpr h]

theorem dropRightWhileChars_append_keep (p : Char → Bool) (a b : List Char)
    (c : Char) (a' : List Char) (ha : a = a' ++ [c]) (hc : p c = false) :
    dropRightWhileChars p (a ++ b) = a ++ dropRightWhileChars p b := by
  subst ha
  unfold dropRightWhileChars
  rw [List.reverse_append, List.reverse_append, List.dropWhile_append]
  by_cases hbe : (b.reverse.dropWhile p).isEmpty
  · rw [if_pos hbe]
    have hbnil : b.reverse.dropWhile p = [] := by
      cases hx : b.reverse.dropWhile p
      · rfl
      · rw [hx] at hbe; simp at hbe
    rw [hbnil]
    simp [List.dropWhile_cons, hc]
  · rw [if_neg hbe]
    simp

theorem pyStrip_table_data (nm : String) :
    ∃ cs : List Char,
      (pyStrip ("table " ++ nm)).data = 't' :: 'a' :: 'b' :: 'l' :: 'e' :: cs := by
  unfold pyStrip
  have hdata : ("table " ++ nm).data = ['t', 'a', 'b', 'l', 'e'] ++ (' ' :: nm.data) := by
    have h1 : ("table " ++ nm).data = "table ".data ++ nm.data := rfl
    have h2 : "table ".data = ['t', 'a', 'b', 'l', 'e', ' '] := by decide
    rw [h1, h2]
    rfl
  rw [hdata]
  have hdrop : (( ['t', 'a', 'b', 'l', 'e'] ++ (' ' :: nm.data)).dropWhile isWsChar)
      = ['t', 'a', 'b', 'l', 'e'] ++ (' ' :: nm.data) := by
    rw [List.cons_append, List.dropWhile_cons]
    simp [isWsChar]
  rw [hdrop]
  rw [dropRightWhileChars_append_keep isWsChar ['t', 'a', 'b', 'l', 'e'] (' ' :: nm.data)
    'e' ['t', 'a', 'b', 'l'] (by decide) (by decide)]
  exact ⟨dropRightWhileChars isWsChar (' ' :: nm.data), rfl⟩

theorem getIndent_table (nm : String) : getIndent ("table " ++ nm) = 0 := by
  unfold getIndent
  have hdata : ("table " ++ nm).data = 't' :: ('a' :: 'b' :: 'l' :: 'e' :: ' ' :: nm.data) := by
    have h1 : ("table " ++ nm).data = "table ".data ++ nm.data := rfl
    rw [h1]
    have h2 : "table ".data = ['t', 'a', 'b', 'l', 'e', ' '] := by decide
    rw [h2]
    rfl
  rw [hdata, List.takeWhile_cons]
  simp

def c5_rel : TmdlRel :=
  { from_table := "TableA", from_column := "ColA", to_table := "TableB", to_column := "ColB" }

def c5_rel_lines : List String :=
  ["relationship r1", "\tfromTable: TableA", "\tfromColumn: ColA",
   "\ttoTable: TableB", "\ttoColumn: ColB"]

theorem c5_table_line_step (nm : String) :
    tmdlStep ({ rel_buf := c5_rel, in_relationship := true } : PState) ("table " ++ nm)
      = ({ rels := [c5_rel] } : PState) := by
  obtain ⟨cs, hshape⟩ := pyStrip_table_data nm
  have hne : pyStrip ("table " ++ nm) ≠ "" := by
    intro h
    rw [h] at hshape
    simp at hshape
  have hrel0 : startsWithStr "relationship" (pyStrip ("table " ++ nm)) = false :=
    startsWith_false_of_two _ _ 'r' 'e' ("lationship".data) 't' 'a' _ (by decide) hshape (Or.inl (by decide))
  have h1 : startsWithStr "fromTable:" (pyStrip ("table " ++ nm)) = false :=
    startsWith_false_of_two _ _ 'f' 'r' ("omTable:".data) 't' 'a' _ (by decide) hshape (Or.inl (by decide))
  have h2 : startsWithStr "fromColumn:" (pyStrip ("table " ++ nm)) = false :=
    startsWith_false_of_two _ _ 'f' 'r' ("omColumn:".data) 't' 'a' _ (by decide) hshape (Or.inl (by decide))
  have h3 : startsWithStr "toTable:" (pyStrip ("table " ++ nm)) = false :=
    startsWith_false_of_two _ _ 't' 'o' ("Table:".data) 't' 'a' _ (by decide) hshape (Or.inr (by decide))
  have h4 : startsWithStr "toColumn:" (pyStrip ("table " ++ nm)) = false :=
    startsWith_false_of_two _ _ 't' 'o' ("Column:".data) 't' 'a' _ (by decide) hshape (Or.inr (by decide))
  have h5 : startsWithStr "cardinality:" (pyStrip ("table " ++ nm)) = false :=
    startsWith_false_of_two _ _ 'c' 'a' ("rdinality:".data) 't' 'a' _ (by decide) hshape (Or.inl (by decide))
  have h6 : startsWithStr "crossFilteringBehavior:" (pyStrip ("table " ++ nm)) = false :=
    startsWith_false_of_two _ _ 'c' 'r' ("ossFilteringBehavior:".data) 't' 'a' _ (by decide) hshape (Or.inl (by decide))
  simp only [tmdlStep]
  rw [if_neg hne, if_neg (by rw [hrel0]; exact Bool.false_ne_true), if_pos trivial]
  unfold relLineStep
  rw [if_neg (by rw [h1]; exact Bool.false_ne_true),
      if_neg (by rw [h2]; exact Bool.false_ne_true),
      if_neg (by rw [h3]; exact Bool.false_ne_true),
      if_neg (by rw [h4]; exact Bool.false_ne_true),
      if_neg (by rw [h5]; exact Bool.false_ne_true),
      if_neg (by rw [h6]; exact Bool.false_ne_true),
      if_pos (getIndent_table nm)]
  rw [if_pos (by decide)]
  decide

theorem tmdlStep_skip (st : PState) (l : String)
    (hrel : st.in_relationship = false) (hct : st.current_table = none)
    (hi : getIndent l ≠ 0)
    (hr : startsWithStr "relationship" (pyStrip l) = false) :
    tmdlStep st l = st := by
  by_cases hs : pyStrip l = ""
  · simp only [tmdlStep]
    rw [if_pos hs]
  · simp [tmdlStep, hs, hr, hrel, hct, hi]

theorem foldl_tmdlStep_skip (st : PState)
    (hrel : st.in_relationship = false) (hct : st.current_table = none) :
    ∀ body : List String,
      (∀ l ∈ body, getIndent l ≠ 0 ∧ startsWithStr "relationship" (pyStrip l) = false) →
      List.foldl tmdlStep st body = st := by
  intro body
  induction body with
  | nil => intro _; rfl
  | cons l ls ih =>
    intro hb
    rw [List.foldl_cons,
      tmdlStep_skip st l hrel hct (hb l (List.mem_cons_self l ls)).1
        (hb l (List.mem_cons_self l ls)).2]
    exact ih fun x hx => hb x (List.mem_cons_of_mem l hx)

/-- C5 (amended): a relationship block does end when indentation returns to
top level, but the top-level line that ends it is consumed by the
relationship branch.  Hence for every definition-file text consisting of a
relationship block directly followed by a top-level table header (with any
indented column/measure lines after it), the relationship is recorded but
the table is lost: the output contains no table record at all, because the
header opened no table context and the indented lines are skipped. -/
theorem c5_relationship_block_swallows_table (tableName : String) (body : List String)
    (hbody : ∀ l ∈ body, getIndent l ≠ 0 ∧ startsWithStr "relationship" (pyStrip l) = false) :
    parse_tmdl_lines (c5_rel_lines ++ ("table " ++ tableName) :: body) =
      { tables := [], relationships := [c5_rel] } := by
  unfold parse_tmdl_lines
  rw [List.foldl_append]
  have h1 : List.foldl tmdlStep {} c5_rel_lines =
      ({ rel_buf := c5_rel, in_relationship := true } : PState) := by decide
  rw [h1, List.foldl_cons, c5_table_line_step tableName,
      foldl_tmdlStep_skip ({ rels := [c5_rel] } : PState) rfl rfl body hbody]
  decide

/-- Witness for C5: the amended behaviour on a concrete table body with one
column and one measure following the relationship block. -/
theorem c5_relationship_block_swallows_table_witness :
    parse_tmdl_lines
        (c5_rel_lines ++
          ("table " ++ "Sales") ::
            ["\tcolumn OrderId", "\t\tdataType: int64",
             "\tmeasure 'Total Revenue' = SUM(Sales[Amount])"]) =
      { tables := [], relationships := [c5_rel] } :=
  c5_relationship_block_swallows_table "Sales"
    ["\tcolumn OrderId", "\t\tdataType: int64",
     "\tmeasure 'Total Revenue' = SUM(Sales[Amount])"]
    (by decide)

/-- Counterexample to C5 as stated: in this definition-file text the table
header directly follows a relationship block, yet the parsed output holds
no table named Sales (its column is dropped as well); only the
relationship survives. -/
theorem c5_relationship_block_counterexample :
    parse_tmdl
        ("relationship r1\n\tfromTable: TableA\n\tfromColumn: ColA\n\ttoTable: TableB\n\ttoColumn: ColB\ntable Sales\n\tcolumn OrderId\n\t\tdataType: int64\n")
      = { tables := [], relationships := [c5_rel] } ∧
    (parse_tmdl
        ("relationship r1\n\tfromTable: TableA\n\tfromColumn: ColA\n\ttoTable: TableB\n\ttoColumn: ColB\ntable Sales\n\tcolumn OrderId\n\t\tdataType: int64\n")).tables.filter
        (fun t => t.name == "Sales") = [] := by
  refine ⟨by decide, by decide⟩

/- ------------------------------------------------------------------ -/
/- Claims C2 and C3.                                                  -/
/- ------------------------------------------------------------------ -/

/-- C3 (amended): the modern resolver ignores role names entirely — a
Measure-tagged field is recorded as a measure reference and a
Column-tagged field as a dimension reference under every role; role-based
classification against the fixed measure-role set happens only in the
legacy queryRef resolver, where an aggregation binding is recorded as a
measure under every role and a plain binding follows the role set. -/
theorem c3_role_classification (role e p qref en pn : String) (isAgg : Bool) :
    (e ≠ "" → p ≠ "" →
      extract_field_refs_v2 [(role, some [ProjField.measureF e p])] = ([⟨p, e⟩], [])) ∧
    (e ≠ "" → p ≠ "" →
      extract_field_refs_v2 [(role, some [ProjField.columnF e p])] = ([], [⟨p, e⟩])) ∧
    (qref ≠ "" → pn ≠ "" → parse_queryref qref = (en, pn, isAgg) →
      extract_legacy_refs [(role, [qref])] =
        if MEASURE_ROLES.contains role || isAgg then ([⟨pn, en⟩], []) else ([], [⟨pn, en⟩])) := by
  refine ⟨?_, ?_, ?_⟩
  · intro he hp
    simp [extract_field_refs_v2, processProjField, he, hp]
  · intro he hp
    simp [extract_field_refs_v2, processProjField, he, hp]
  · intro hq hp hparse
    simp [extract_legacy_refs, legacyProjStep, hq, hp, hparse]
    split <;> rfl

/-- Witness for C3: the modern resolver records a measure field under the
non-measure role Category as a measure anyway, and the legacy resolver
records an aggregation queryRef under Category as a measure. -/
theorem c3_role_classification_witness :
    extract_field_refs_v2 [("Category", some [ProjField.measureF "Sales" "Total"])]
      = ([⟨"Total", "Sales"⟩], []) ∧
    extract_legacy_refs [("Category", ["Sum(Sales.Amount)"])] = ([⟨"Amount", "Sales"⟩], []) := by
  constructor
  · exact (c3_role_classification "Category" "Sales" "Total" "Sum(Sales.Amount)"
      "Sales" "Amount" true).1 (by decide) (by decide)
  · have h := (c3_role_classification "Category" "Sales" "Total" "Sum(Sales.Amount)"
      "Sales" "Amount" true).2.2 (by decide) (by decide) (by decide)
    exact h.trans (by decide)

/-- Counterexample to C3 as stated: Y is in the fixed measure-role set, yet
a Column-tagged field bound under Y is recorded as a dimension reference,
not a measure reference — the modern resolver does not classify by role. -/
theorem c3_role_classification_counterexample :
    MEASURE_ROLES.contains "Y" = true ∧
    extract_field_refs_v2 [("Y", some [ProjField.columnF "Sales" "Region"])]
      = ([], [⟨"Region", "Sales"⟩]) := by
  refine ⟨by decide, by decide⟩

/-- C2 (amended): a plain measure reference under a measure role and a
plain column reference under a non-measure role resolve identically under
the modern queryState shape and the legacy queryRef shape; but an implicit
aggregation wrapping a plain column diverges: the modern resolver records
it as a dimension while the legacy resolver records it as a measure, so
the two schema generations are not equivalent. -/
theorem c2_schema_generations (role e p qref : String) :
    (MEASURE_ROLES.contains role = true → e ≠ "" → p ≠ "" → qref ≠ "" →
      parse_queryref qref = (e, p, false) →
      extract_field_refs_v2 [(role, some [ProjField.measureF e p])]
        = extract_legacy_refs [(role, [qref])] ∧
      extract_field_refs_v2 [(role, some [ProjField.measureF e p])] = ([⟨p, e⟩], [])) ∧
    (MEASURE_ROLES.contains role = false → e ≠ "" → p ≠ "" → qref ≠ "" →
      parse_queryref qref = (e, p, false) →
      extract_field_refs_v2 [(role, some [ProjField.columnF e p])]
        = extract_legacy_refs [(role, [qref])] ∧
      extract_field_refs_v2 [(role, some [ProjField.columnF e p])] = ([], [⟨p, e⟩])) ∧
    (e ≠ "" → p ≠ "" → qref ≠ "" → parse_queryref qref = (e, p, true) →
      extract_field_refs_v2 [(role, some [ProjField.aggregationF e p])] = ([], [⟨p, e⟩]) ∧
      extract_legacy_refs [(role, [qref])] = ([⟨p, e⟩], [])) := by
  refine ⟨?_, ?_, ?_⟩
  · intro hrole he hp hq hparse
    constructor
    · simp [extract_field_refs_v2, processProjField, extract_legacy_refs, legacyProjStep,
        he, hp, hq, hparse]
      rw [if_pos (show role ∈ MEASURE_ROLES by simpa using hrole)]
      exact ⟨rfl, rfl⟩
    · simp [extract_field_refs_v2, processProjField, he, hp]
  · intro hrole he hp hq hparse
    constructor
    · simp [extract_field_refs_v2, processProjField, extract_legacy_refs, legacyProjStep,
        he, hp, hq, hparse]
      rw [if_neg (show role ∉ MEASURE_ROLES by simpa using hrole)]
      exact ⟨rfl, rfl⟩
    · simp [extract_field_refs_v2, processProjField, he, hp]
  · intro he hp hq hparse
    constructor
    · simp [extract_field_refs_v2, processProjField, he, hp]
    · simp [extract_legacy_refs, legacyProjStep, hq, hp, hparse]

/-- Witness for C2: a measure on table Sales bound under role Y resolves to
the same single measure record under both schema shapes. -/
theorem c2_schema_generations_witness :
    extract_field_refs_v2 [("Y", some [ProjField.measureF "Sales" "Total"])]
      = extract_legacy_refs [("Y", ["Sales.Total"])] :=
  ((c2_schema_generations "Y" "Sales" "Total" "Sales.Total").1
    (by decide) (by decide) (by decide) (by decide) (by decide)).1

/-- Counterexample to C2 as stated: the same aggregation-of-column binding
under role Category yields a dimension record from the modern resolver and
a measure record from the legacy resolver — the outputs differ. -/
theorem c2_schema_generations_counterexample :
    extract_field_refs_v2 [("Category", some [ProjField.aggregationF "Sales" "Amount"])]
      = ([], [⟨"Amount", "Sales"⟩]) ∧
    extract_legacy_refs [("Category", ["Sum(Sales.Amount)"])] = ([⟨"Amount", "Sales"⟩], []) ∧
    (([], [⟨"Amount", "Sales"⟩]) : List FieldRef × List FieldRef) ≠ ([⟨"Amount", "Sales"⟩], []) := by
  refine ⟨by decide, by decide, by decide⟩

/- ------------------------------------------------------------------ -/
/- Claims C7, C8, C10.                                                -/
/- ------------------------------------------------------------------ -/

theorem append_ne_empty_left (a b : String) (ha : a ≠ "") : a ++ b ≠ "" := by
  intro h
  apply ha
  have hd : a.data ++ b.data = [] := congrArg String.data h
  have h2 := (List.append_eq_nil.mp hd).1
  cases a with
  | mk d =>
    simp only at h2
    rw [h2]

theorem build_dax_nonempty (vtype mname mentity : String) (cols : List FieldRef) :
    build_dax_for_visual vtype mname mentity cols ≠ "" := by
  unfold build_dax_for_visual
  split
  · repeat apply append_ne_empty_left
    decide
  · split
    · repeat apply append_ne_empty_left
      decide
    · repeat apply append_ne_empty_left
      decide

theorem mk_measure_dax_ne (s : String) : (if s = "" then daxSentinel else s) ≠ "" := by
  by_cases h : s = ""
  · rw [if_pos h]
    decide
  · rw [if_neg h]
    exact h

theorem visual_measure_loop_dax_ne (vtype : String) (vcols : List FieldRef) (model : SemModel) :
    ∀ (ms : List FieldRef) (qs : List Query) (seen : List String),
      (∀ q ∈ qs, q.measure_dax ≠ "") →
      ∀ q ∈ (visual_measure_loop vtype vcols model ms (qs, seen)).1, q.measure_dax ≠ "" := by
  intro ms
  induction ms with
  | nil =>
    intro qs seen hqs
    simpa [visual_measure_loop] using hqs
  | cons m rest ih =>
    intro qs seen hqs
    simp only [visual_measure_loop]
    split
    · exact ih qs seen hqs
    · split
      · refine ih _ _ ?_
        intro q hq
        rcases List.mem_append.mp hq with hq | hq
        · exact hqs q hq
        · rcases List.mem_singleton.mp hq with rfl
          exact mk_measure_dax_ne _
      · exact ih qs _ hqs

theorem visual_measure_loop_length (vtype : String) (vcols : List FieldRef) (model : SemModel) :
    ∀ (ms : List FieldRef) (qs : List Query) (seen : List String),
      (visual_measure_loop vtype vcols model ms (qs, seen)).1.length ≤ qs.length + ms.length := by
  intro ms
  induction ms with
  | nil =>
    intro qs seen
    simp [visual_measure_loop]
  | cons m rest ih =>
    intro qs seen
    simp only [visual_measure_loop, List.length_cons]
    split
    · have h := ih qs seen
      omega
    · split
      · refine le_trans (ih _ _) ?_
        simp only [List.length_append, List.length_cons, List.length_nil]
        omega
      · refine le_trans (ih _ _) ?_
        omega

/-- C7 (confirmed): the per-visual measure loop of the query synthesizer
emits at most three measure-based query records for one visual, whatever
the number of measures bound to it and whatever the page-level seen set
already holds. -/
theorem c7_query_cap (vtype : String) (vms vcols : List FieldRef) (model : SemModel)
    (seen : List String) :
    (visual_measure_queries vtype vms vcols model seen).1.length ≤ 3 := by
  unfold visual_measure_queries
  refine le_trans (visual_measure_loop_length vtype vcols model (vms.take 3) [] seen) ?_
  simp only [List.length_nil, Nat.zero_add]
  have h : (vms.take 3).length = min 3 vms.length := by simp
  omega

theorem single_measure_sentinel (vtype : String) (m : FieldRef) (vcols : List FieldRef)
    (model : SemModel) (h : measureDaxExpr model m.entity m.name = "") :
    (visual_measure_queries vtype [m] vcols model []).1.map Query.measure_dax
      = [daxSentinel] := by
  simp [visual_measure_queries, visual_measure_loop, h,
    build_dax_nonempty vtype m.name m.entity vcols]

/-- C8 (amended): every measure-based query record carries a nonempty
originating-expression string — the or-chained lookup result when it is
nonempty, the sentinel otherwise — and a measure whose expression does not
resolve still yields its query record, carrying the sentinel.  (Column-only
listing queries, by contrast, carry an empty expression field; see the
counterexample.) -/
theorem c8_measure_query_expression (vtype : String) (vms vcols : List FieldRef)
    (model : SemModel) (seen : List String) (m : FieldRef) :
    (∀ q ∈ (visual_measure_queries vtype vms vcols model seen).1, q.measure_dax ≠ "") ∧
    (measureDaxExpr model m.entity m.name = "" →
      (visual_measure_queries vtype [m] vcols model []).1.map Query.measure_dax
        = [daxSentinel]) := by
  constructor
  · exact visual_measure_loop_dax_ne vtype vcols model (vms.take 3) [] seen (by intro q hq; cases hq)
  · exact single_measure_sentinel vtype m vcols model

/-- Witness for C8: a card visual bound to a measure absent from the model
still emits one query record, whose expression field is the sentinel. -/
theorem c8_measure_query_expression_witness :
    (visual_measure_queries "card" [⟨"M", "T"⟩] [] {} []).1.map Query.measure_dax
      = [daxSentinel] :=
  (c8_measure_query_expression "card" [] [] {} [] ⟨"M", "T"⟩).2 (by decide)

/-- Counterexample to C8 as stated: a table visual with a column binding
and no measure binding emits a column-only listing query whose
originating-expression field is the empty string. -/
theorem c8_measure_query_expression_counterexample :
    (build_dax_queries
        [{ name := "p1", display_name := "Pg", ordinal := 0,
           visuals := [{ visual_id := "v1", visual_type := "table",
                         columns := [⟨"Col", "T"⟩] }] }] {}).map
      (fun g => g.queries.map Query.measure_dax) = [[""]] := by
  decide

/-- C10 (amended): a model measure with an empty stored expression is
treated as unresolved: whenever the or-chained lookup falls through both
the (table, name) key and the name-only key, the emitted query record
carries the (nonempty) sentinel, never the stored empty string.  (When a
different same-named measure supplies a nonempty expression through the
name-only fallback, that expression is used instead; see the
counterexample.) -/
theorem c10_empty_expression_sentinel (model : SemModel) (e n vtype : String)
    (vcols : List FieldRef)
    (hmem : ({ table := e, name := n, dax := "" } : ModelMeasure) ∈ model.measures)
    (hfall : measureDaxExpr model e n = "") :
    (visual_measure_queries vtype [⟨n, e⟩] vcols model []).1.map Query.measure_dax
      = [daxSentinel] ∧ daxSentinel ≠ "" := by
  refine ⟨?_, by decide⟩
  exact single_measure_sentinel vtype ⟨n, e⟩ vcols model hfall

/-- Witness for C10: a model holding only an empty-expression measure
resolves to the sentinel for a card visual referencing it. -/
theorem c10_empty_expression_sentinel_witness :
    (visual_measure_queries "card" [⟨"M", "T1"⟩] []
        { measures := [{ table := "T1", name := "M", dax := "" }] } []).1.map
      Query.measure_dax = [daxSentinel] :=
  (c10_empty_expression_sentinel { measures := [{ table := "T1", name := "M", dax := "" }] }
    "T1" "M" "card" [] (by decide) (by decide)).1

/-- Counterexample to C10 as stated: when a different measure with the same
name but nonempty expression exists in another table, the name-only
fallback resolves to that expression, so the emitted record does not carry
the sentinel even though the referenced measure has an empty expression. -/
theorem c10_empty_expression_sentinel_counterexample :
    (({ table := "T1", name := "M", dax := "" } : ModelMeasure) ∈
      ({ measures := [{ table := "T1", name := "M", dax := "" },
                      { table := "T2", name := "M", dax := "X" }] } : SemModel).measures) ∧
    (visual_measure_queries "card" [⟨"M", "T1"⟩] []
        { measures := [{ table := "T1", name := "M", dax := "" },
                       { table := "T2", name := "M", dax := "X" }] } []).1.map
      Query.measure_dax = ["X"] ∧
    ("X" : String) ≠ daxSentinel := by
  refine ⟨by decide, by decide, by decide⟩

/- ------------------------------------------------------------------ -/
/- Claim C9.                                                          -/
/- ------------------------------------------------------------------ -/

theorem build_dax_queries_from_slide (model : SemModel) :
    ∀ (n : Nat) (ps : List Page),
      (build_dax_queries_from n model ps).map QueryGroup.slide_number
        = List.range' n ps.length := by
  intro n ps
  induction ps generalizing n with
  | nil => rfl
  | cons p rest ih =>
    rw [List.length_cons, List.range'_succ]
    simp [build_dax_queries_from, ih]

theorem build_dax_queries_from_name (model : SemModel) :
    ∀ (n : Nat) (ps : List Page),
      (build_dax_queries_from n model ps).map QueryGroup.page_name
        = ps.map Page.display_name := by
  intro n ps
  induction ps generalizing n with
  | nil => rfl
  | cons p rest ih => simp [build_dax_queries_from, ih]

theorem slides_meta_from_slide (src : String) (im : Nat → Option String) :
    ∀ (n : Nat) (ps : List Page),
      (slides_meta_from n src im ps).map SlideMeta.slide_number = List.range' n ps.length := by
  intro n ps
  induction ps generalizing n with
  | nil => rfl
  | cons p rest ih =>
    rw [List.length_cons, List.range'_succ]
    simp [slides_meta_from, ih]

theorem slides_meta_from_title (src : String) (im : Nat → Option String) :
    ∀ (n : Nat) (ps : List Page),
      (slides_meta_from n src im ps).map SlideMeta.title = ps.map Page.display_name := by
  intro n ps
  induction ps generalizing n with
  | nil => rfl
  | cons p rest ih => simp [slides_meta_from, ih]

/-- C9 (confirmed): query synthesis and slide metadata are computed over
exactly the pages whose hidden flag is false, in their resolved order,
numbered consecutively from 1, for both the pbip and the pbix entry
points; a hidden page contributes neither a query group nor a slide
entry. -/
theorem c9_hidden_pages_excluded (pages : List Page) (model : SemModel)
    (im : Nat → Option String) :
    (∀ p ∈ visible_pages pages, p.is_hidden = false) ∧
    (∀ p ∈ pages, p.is_hidden = false → p ∈ visible_pages pages) ∧
    (build_dax_queries (visible_pages pages) model).map QueryGroup.slide_number
      = List.range' 1 (visible_pages pages).length ∧
    (build_dax_queries (visible_pages pages) model).map QueryGroup.page_name
      = (visible_pages pages).map Page.display_name ∧
    (pbip_slides_meta (visible_pages pages) im).map SlideMeta.slide_number
      = List.range' 1 (visible_pages pages).length ∧
    (pbip_slides_meta (visible_pages pages) im).map SlideMeta.title
      = (visible_pages pages).map Page.display_name ∧
    (pbix_slides_meta (visible_pages pages) im).map SlideMeta.slide_number
      = List.range' 1 (visible_pages pages).length := by
  refine ⟨?_, ?_, ?_, ?_, ?_, ?_, ?_⟩
  · intro p hp
    have h := (List.mem_filter.mp hp).2
    simpa using h
  · intro p hp h
    rw [visible_pages, List.mem_filter]
    exact ⟨hp, by simp [h]⟩
  · exact build_dax_queries_from_slide model 1 _
  · exact build_dax_queries_from_name model 1 _
  · exact slides_meta_from_slide "pbip" im 1 _
  · exact slides_meta_from_title "pbip" im 1 _
  · exact slides_meta_from_slide "pbix" im 1 _

/-- Witness for C9: with one visible and one hidden page, exactly one
query group numbered 1 is produced. -/
theorem c9_hidden_pages_excluded_witness :
    (build_dax_queries
        (visible_pages
          [{ name := "a", display_name := "Overview", ordinal := 0 },
           { name := "b", display_name := "Secret", ordinal := 1, is_hidden := true }])
        {}).map QueryGroup.slide_number = [1] := by
  have h := (c9_hidden_pages_excluded
    [{ name := "a", display_name := "Overview", ordinal := 0 },
     { name := "b", display_name := "Secret", ordinal := 1, is_hidden := true }]
    {} (fun _ => none)).2.2.1
  exact h.trans (by decide)
